import Mathlib

/-!
Verification of the maze-generation and movement/collision core of the
3d-maze-game repository.

The embedding mirrors the JavaScript source:

* `generateMaze` (src/js/maze.js): recursive-backtracking carve (`carvePath`)
  over an `N × N` grid of cells encoded exactly as in the source
  (`1` = wall, `0` = path, `2` = exit), followed by rejection-sampling
  placement of the exit cell and computation of its world coordinates.
* `checkCollision` (collision module): world coordinate to grid-index
  conversion with `floor(coord + size/2)`, bounds check, wall check, exit
  check.  The source signals the exit by calling `showMessageBox` and
  unlocking the pointer controls; the embedding returns that event as the
  second component of the result pair.
* the per-frame movement resolution of `animate` (src/js/main.js):
  full move, then x-only slide, then z-only slide, else stop and zero the
  velocity (`resolveMove`).

A grid is embedded as a total function `Int → Int → Nat`.  Cells outside
the initialized `[0,N)²` square hold the sentinel value `3`, which models
the JavaScript `undefined` obtained when reading outside an initialized
array row: like `undefined`, the sentinel compares unequal to `0`, `1`
and `2`, and the source only ever compares out-of-range reads against
those values.  `Math.random()`-driven choices are embedded as a stream of
natural numbers (a `List Nat`, default `0` past the end);
`Math.floor(Math.random() * k)` producing a value in `[0, k)` becomes
`jsRandFloor r k = r % k` (and `0` when `k = 0`, matching
`Math.floor(x * 0) = 0`).  The two unbounded-recursion sites of the
source (the carve recursion and the exit rejection-sampling loop) take
explicit fuel and return `none` when it runs out; theorems below show the
carve always terminates within the depth bound `⌈N/2⌉²`.
-/

namespace MazeGame

/-- A maze grid: cell state at row `y`, column `x`.  Values as in the
source: `1` = wall, `0` = path, `2` = exit, `3` = uninitialized
(JavaScript `undefined`, outside `[0,N)²`). -/
abbrev Grid := Int → Int → Nat

/-- Functional update of one grid cell, `mazeArray[y][x] = v`. -/
def setCell (g : Grid) (y x : Int) (v : Nat) : Grid :=
  fun y' x' => if y' = y ∧ x' = x then v else g y' x'

/-- The grid right after the initialization loop of `generateMaze`:
every cell of `[0,N)²` is a wall (`1`), everything else is untouched
(sentinel `3` for `undefined`). -/
def initGrid (n : Nat) : Grid :=
  fun y x => if 0 ≤ y ∧ y < (n : Int) ∧ 0 ≤ x ∧ x < (n : Int) then 1 else 3

/-- Embedding of `Math.floor(Math.random() * k)` where `r` is the random
draw: an arbitrary value in `[0, k)` (and `0` when `k = 0`). -/
def jsRandFloor (r k : Nat) : Nat :=
  if k = 0 then 0 else r % k

/-- The direction list of `carvePath`, in source order:
right, left, down, up. -/
def dirs : List (Int × Int) := [(1, 0), (-1, 0), (0, 1), (0, -1)]

/-- One Fisher–Yates swap `[directions[i], directions[j]] = [directions[j], directions[i]]`. -/
def listSwap (l : List (Int × Int)) (i j : Nat) : List (Int × Int) :=
  match l[i]?, l[j]? with
  | some a, some b => (l.set i b).set j a
  | _, _ => l

/-- The Fisher–Yates loop of `carvePath`, indices `i, i-1, …, 1`;
each step draws `j = Math.floor(Math.random() * (i + 1))`.
Returns the permuted list and the remaining random stream. -/
def fyLoop : Nat → List (Int × Int) → List Nat → List (Int × Int) × List Nat
  | 0, l, s => (l, s)
  | i + 1, l, s => fyLoop i (listSwap l (i + 1) (jsRandFloor (s.headD 0) (i + 2))) s.tail

/-- Shuffle of the direction list (`for (let i = length-1; i > 0; i--) …`). -/
def shuffle (l : List (Int × Int)) (s : List Nat) : List (Int × Int) × List Nat :=
  fyLoop (l.length - 1) l s

/-- The `for (const dir of directions)` loop body of `carvePath`: for each
direction, if the cell two steps away is in bounds and still a wall, carve
the intermediate cell and recurse (`recur`) from the far cell.  `recur` is
the carve at one less recursion depth. -/
def carveDirs (n : Nat) (recur : Grid → Int → Int → List Nat → Option (Grid × List Nat))
    (cx cy : Int) : Grid → List (Int × Int) → List Nat → Option (Grid × List Nat)
  | g, [], s => some (g, s)
  | g, d :: ds, s =>
    if 0 ≤ cx + d.1 * 2 ∧ cx + d.1 * 2 < (n : Int) ∧ 0 ≤ cy + d.2 * 2 ∧ cy + d.2 * 2 < (n : Int)
        ∧ g (cy + d.2 * 2) (cx + d.1 * 2) = 1 then
      match recur (setCell g (cy + d.2) (cx + d.1) 0) (cx + d.1 * 2) (cy + d.2 * 2) s with
      | none => none
      | some gs => carveDirs n recur cx cy gs.1 ds gs.2
    else carveDirs n recur cx cy g ds s

/-- The recursive backtracking carve `carvePath(cx, cy)`: mark the current
cell as path, shuffle the four directions, then try them in order.  The
fuel argument bounds the recursion depth; each nested call gets one unit
less. -/
def carvePath (n : Nat) : Nat → Grid → Int → Int → List Nat → Option (Grid × List Nat)
  | 0, _, _, _, _ => none
  | fuel + 1, g, cx, cy, s =>
    carveDirs n (carvePath n fuel) cx cy (setCell g cy cx 0)
      (shuffle dirs s).1 (shuffle dirs s).2

/-- `CELL_SIZE` from src/js/main.js. -/
def CELL_SIZE : ℚ := 1

/-- The exit-placement rejection-sampling loop of `generateMaze`: sample
`randX, randY ∈ [1, size-2]` until a path cell different from the start is
found, mark it `2` and compute its world coordinates
`(rand - size/2 + 0.5) * CELL_SIZE`. -/
def exitLoop (n : Nat) (sx sy : Int) (g : Grid) : Nat → List Nat → Option (Grid × ℚ × ℚ)
  | 0, _ => none
  | fuel + 1, s =>
    let randX : Int := (jsRandFloor (s.headD 0) (n - 2) : Nat) + 1
    let randY : Int := (jsRandFloor (s.tail.headD 0) (n - 2) : Nat) + 1
    if g randY randX = 0 ∧ ¬(randX = sx ∧ randY = sy) then
      some (setCell g randY randX 2,
        ((randX : ℚ) - (n : ℚ) / 2 + 1 / 2) * CELL_SIZE,
        ((randY : ℚ) - (n : ℚ) / 2 + 1 / 2) * CELL_SIZE)
    else exitLoop n sx sy g fuel s.tail.tail

/-- Depth bound `⌈N/2⌉²` used as carve fuel; proven sufficient below
(`carvePath_terminates`). -/
def carveFuel (n : Nat) : Nat := ((n + 1) / 2) * ((n + 1) / 2)

/-- `generateMaze(mazeSize, mazeArray, exitPosVector, startX, startY)`:
initialize all walls, carve from the start, then place the exit.  Returns
the final grid together with the world `x`/`z` coordinates stored into
`exitPosVector` (its `y` component is always `0` in the source).
`exitFuel` bounds the unbounded rejection-sampling loop of the source;
`none` models non-termination of that loop. -/
def generateMaze (n : Nat) (sx sy : Int) (s : List Nat) (exitFuel : Nat) :
    Option (Grid × ℚ × ℚ) :=
  match carvePath n (carveFuel n) (initGrid n) sx sy s with
  | none => none
  | some gs => exitLoop n sx sy gs.1 exitFuel gs.2

/-- `checkCollision(newPos, maze, mazeSize, showMessageBox, pointerControls)`.
First component: the returned boolean (`true` = collision/blocked).
Second component: whether the exit branch fired (`showMessageBox` +
`pointerControls.unlock()` in the source). -/
def checkCollision (px pz : ℚ) (maze : Grid) (n : Nat) : Bool × Bool :=
  let gridX : Int := ⌊px + (n : ℚ) / 2⌋
  let gridZ : Int := ⌊pz + (n : ℚ) / 2⌋
  if gridX < 0 ∨ (n : Int) ≤ gridX ∨ gridZ < 0 ∨ (n : Int) ≤ gridZ then (true, false)
  else if maze gridZ gridX = 1 then (true, false)
  else if maze gridZ gridX = 2 then (false, true)
  else (false, false)

/-- Result of one frame of movement resolution. -/
structure MoveResult where
  pos : ℚ × ℚ
  vel : ℚ × ℚ
  reachedExit : Bool

/-- The collision-resolution step of `animate` (src/js/main.js lines
196-235): try the combined move, else slide along x only, else along z
only, else keep the position and zero the velocity.  `reachedExit`
records whether any executed `checkCollision` call fired the exit
event. -/
def resolveMove (pos vel : ℚ × ℚ) (maze : Grid) (n : Nat) : MoveResult :=
  let newPos : ℚ × ℚ := (pos.1 + vel.1, pos.2 + vel.2)
  let c := checkCollision newPos.1 newPos.2 maze n
  if c.1 = false then ⟨newPos, vel, c.2⟩
  else
    let newPosX : ℚ × ℚ := (pos.1 + vel.1, pos.2)
    let cX := checkCollision newPosX.1 newPosX.2 maze n
    if cX.1 = false then ⟨newPosX, vel, cX.2⟩
    else
      let newPosZ : ℚ × ℚ := (pos.1, pos.2 + vel.2)
      let cZ := checkCollision newPosZ.1 newPosZ.2 maze n
      if cZ.1 = false then ⟨newPosZ, vel, cZ.2⟩
      else ⟨pos, (0, 0), false⟩

/-- Grid index `(y, x)` lies inside the `N × N` grid. -/
abbrev inB (n : Nat) (y x : Int) : Prop :=
  0 ≤ y ∧ y < (n : Int) ∧ 0 ≤ x ∧ x < (n : Int)

/-- A position `p = (x, y)` is an in-bounds non-wall cell (path or exit). -/
def nonWall (g : Grid) (n : Nat) (p : Int × Int) : Prop :=
  inB n p.2 p.1 ∧ (g p.2 p.1 = 0 ∨ g p.2 p.1 = 2)

/-- 4-directional adjacency between two in-bounds non-wall cells. -/
def Adj (g : Grid) (n : Nat) (p q : Int × Int) : Prop :=
  nonWall g n p ∧ nonWall g n q ∧ (q.1 - p.1).natAbs + (q.2 - p.2).natAbs = 1

/-- Reachability by a sequence of 4-directional steps through non-wall
cells. -/
def Reach (g : Grid) (n : Nat) (p q : Int × Int) : Prop :=
  Relation.ReflTransGen (Adj g n) p q

/-- `g'` refines `g` by (possibly) carving some cells to path: every cell
is unchanged or has become `0`. -/
def GridLE (g g' : Grid) : Prop := ∀ y x : Int, g' y x = g y x ∨ g' y x = 0

/-- Start cell with both coordinates strictly inside the grid border. -/
abbrev interiorStart (n : Nat) (sx sy : Int) : Prop :=
  1 ≤ sx ∧ sx ≤ (n : Int) - 2 ∧ 1 ≤ sy ∧ sy ≤ (n : Int) - 2

/-- Cell `(y, x)` with both coordinates in `[1, n-2]`. -/
abbrev interiorPt (n : Nat) (y x : Int) : Prop :=
  1 ≤ x ∧ x ≤ (n : Int) - 2 ∧ 1 ≤ y ∧ y ≤ (n : Int) - 2

/-- Number of `Exit` cells in the `N × N` grid. -/
def exitCount (g : Grid) (n : Nat) : Nat :=
  (((Finset.range n) ×ˢ (Finset.range n)).filter
    (fun q => g (q.1 : Int) (q.2 : Int) = 2)).card

/-- Number of wall cells in the grid whose coordinates agree with
`(cx, cy)` modulo 2: the cells the stride-2 carve starting at a cell of
that parity class can visit. -/
def wallPar (g : Grid) (n : Nat) (cx cy : Int) : Nat :=
  (((Finset.range n) ×ˢ (Finset.range n)).filter
    (fun q => (q.2 : Int) % 2 = cx % 2 ∧ (q.1 : Int) % 2 = cy % 2
      ∧ g (q.1 : Int) (q.2 : Int) = 1)).card

/-- Concrete demo grid for the collision witnesses: walls at cells
`(y, x) = (2, 2)` and `(2, 1)`, path everywhere else. -/
def demoMaze : Grid :=
  fun y x => if y = 2 ∧ x = 2 then 1 else if y = 2 ∧ x = 1 then 1 else 0

/-- Concrete all-wall grid. -/
def wallMaze : Grid := fun _ _ => 1

/-- Concrete random stream for a full 5×5 generation from start `(2, 2)`:
27 zero draws for the 9 carve shuffles, then exit draws `0` and `1`
selecting the path cell `(x, y) = (1, 2)`. -/
def rngDemo : List Nat := List.replicate 28 0 ++ [1]

/-- Concrete random stream for a full 4×4 generation from start `(1, 1)`:
12 zero draws for the 4 carve shuffles, then exit draws `0` and `1`. -/
def rngEven : List Nat := List.replicate 13 0 ++ [1]

/-- The concrete result of generating a 5×5 maze from start `(2, 2)` with
the `rngDemo` stream. -/
def demoRes : Grid × ℚ × ℚ := (generateMaze 5 2 2 rngDemo 50).getD (initGrid 5, 0, 0)

/-- Concrete random stream for a full 5×5 generation from the odd-odd
start `(1, 1)`: 12 zero draws for the 4 carve shuffles, then exit draws
`0` and `1`. -/
def rngOdd : List Nat := List.replicate 12 0 ++ [0, 1]

/-- The concrete result of generating a 5×5 maze from start `(1, 1)` with
the `rngOdd` stream. -/
def demoOddRes : Grid × ℚ × ℚ := (generateMaze 5 1 1 rngOdd 50).getD (initGrid 5, 0, 0)

theorem setCell_self (g : Grid) (y x : Int) (v : Nat) : setCell g y x v y x = v := by
  simp [setCell]

theorem setCell_ne (g : Grid) (y x : Int) (v : Nat) (y' x' : Int)
    (h : ¬(y' = y ∧ x' = x)) : setCell g y x v y' x' = g y' x' := by
  simp only [setCell, if_neg h]

theorem gridLE_refl (g : Grid) : GridLE g g := fun _ _ => Or.inl rfl

theorem gridLE_trans {g1 g2 g3 : Grid} (h12 : GridLE g1 g2) (h23 : GridLE g2 g3) :
    GridLE g1 g3 := by
  intro y x
  rcases h23 y x with h | h
  · rw [h]; exact h12 y x
  · exact Or.inr h

theorem gridLE_setCell0 (g : Grid) (y x : Int) : GridLE g (setCell g y x 0) := by
  intro y' x'
  by_cases h : y' = y ∧ x' = x
  · exact Or.inr (by simp [setCell, h])
  · exact Or.inl (setCell_ne g y x 0 y' x' h)

theorem gridLE_zero {g g' : Grid} (h : GridLE g g') {y x : Int} (h0 : g y x = 0) :
    g' y x = 0 := by
  rcases h y x with h2 | h2
  · rw [h2, h0]
  · exact h2

theorem nonWall_mono {g g' : Grid} {n : Nat} (h : GridLE g g') {p : Int × Int}
    (hp : nonWall g n p) : nonWall g' n p := by
  refine ⟨hp.1, ?_⟩
  rcases h p.2 p.1 with h2 | h2
  · rw [h2]; exact hp.2
  · exact Or.inl h2

theorem reach_mono {g g' : Grid} {n : Nat} (h : GridLE g g') {p q : Int × Int}
    (hr : Reach g n p q) : Reach g' n p q := by
  refine Relation.ReflTransGen.mono ?_ hr
  intro a b hab
  exact ⟨nonWall_mono h hab.1, nonWall_mono h hab.2.1, hab.2.2⟩

theorem reach_congr {g g' : Grid} {n : Nat}
    (h : ∀ p, nonWall g n p → nonWall g' n p) {p q : Int × Int}
    (hr : Reach g n p q) : Reach g' n p q := by
  refine Relation.ReflTransGen.mono ?_ hr
  intro a b hab
  exact ⟨h a hab.1, h b hab.2.1, hab.2.2⟩

theorem mem_dirs_cases {d : Int × Int} (h : d ∈ dirs) :
    d = (1, 0) ∨ d = (-1, 0) ∨ d = (0, 1) ∨ d = (0, -1) := by
  simpa [dirs] using h

theorem listSwap_subset {l : List (Int × Int)} {i j : Nat} {x : Int × Int}
    (h : x ∈ listSwap l i j) : x ∈ l := by
  unfold listSwap at h
  rcases hi : l[i]? with _ | a <;> rcases hj : l[j]? with _ | b <;>
    simp only [hi, hj] at h <;> try exact h
  have ha : a ∈ l := by
    obtain ⟨hn, rfl⟩ := List.getElem?_eq_some.mp hi
    exact List.getElem_mem hn
  have hb : b ∈ l := by
    obtain ⟨hn, rfl⟩ := List.getElem?_eq_some.mp hj
    exact List.getElem_mem hn
  rcases List.mem_or_eq_of_mem_set h with h2 | h2
  · rcases List.mem_or_eq_of_mem_set h2 with h3 | h3
    · exact h3
    · exact h3 ▸ hb
  · exact h2 ▸ ha

theorem fyLoop_subset : ∀ (i : Nat) (l : List (Int × Int)) (s : List Nat) {x : Int × Int},
    x ∈ (fyLoop i l s).1 → x ∈ l := by
  intro i
  induction i with
  | zero => intro l s x h; simpa [fyLoop] using h
  | succ i ih =>
    intro l s x h
    exact listSwap_subset (ih _ _ h)

theorem shuffle_subset (l : List (Int × Int)) (s : List Nat) {x : Int × Int}
    (h : x ∈ (shuffle l s).1) : x ∈ l :=
  fyLoop_subset _ _ _ h

theorem carveDirs_LE (n : Nat) (recur : Grid → Int → Int → List Nat → Option (Grid × List Nat))
    (cx cy : Int)
    (hrec : ∀ g a b s g2 s2, recur g a b s = some (g2, s2) → GridLE g g2) :
    ∀ (ds : List (Int × Int)) (g : Grid) (s : List Nat) (g' : Grid) (s' : List Nat),
      carveDirs n recur cx cy g ds s = some (g', s') → GridLE g g' := by
  intro ds
  induction ds with
  | nil =>
    intro g s g' s' h
    simp only [carveDirs, Option.some.injEq, Prod.mk.injEq] at h
    rw [← h.1]
    exact gridLE_refl g
  | cons d ds ih =>
    intro g s g' s' h
    simp only [carveDirs] at h
    split at h
    · split at h
      · exact absurd h (by simp)
      · rename_i gs hrc
        have h1 := gridLE_setCell0 g (cy + d.2) (cx + d.1)
        have h2 := hrec _ _ _ _ gs.1 gs.2 hrc
        have h3 := ih _ _ _ _ h
        exact gridLE_trans (gridLE_trans h1 h2) h3
    · exact ih _ _ _ _ h

theorem carvePath_LE (n : Nat) :
    ∀ (fuel : Nat) (g : Grid) (cx cy : Int) (s : List Nat) (g' : Grid) (s' : List Nat),
      carvePath n fuel g cx cy s = some (g', s') → GridLE g g' := by
  intro fuel
  induction fuel with
  | zero => intro g cx cy s g' s' h; exact absurd h (by simp [carvePath])
  | succ fuel ih =>
    intro g cx cy s g' s' h
    simp only [carvePath] at h
    have h1 := carveDirs_LE n (carvePath n fuel) cx cy
      (fun g a b s g2 s2 hr => ih g a b s g2 s2 hr) _ _ _ _ _ h
    exact gridLE_trans (gridLE_setCell0 g cy cx) h1

theorem mem_dirs_comp {d : Int × Int} (h : d ∈ dirs) :
    (d.1 = 1 ∧ d.2 = 0) ∨ (d.1 = -1 ∧ d.2 = 0) ∨ (d.1 = 0 ∧ d.2 = 1) ∨ (d.1 = 0 ∧ d.2 = -1) := by
  rcases mem_dirs_cases h with rfl | rfl | rfl | rfl
  · exact Or.inl ⟨rfl, rfl⟩
  · exact Or.inr (Or.inl ⟨rfl, rfl⟩)
  · exact Or.inr (Or.inr (Or.inl ⟨rfl, rfl⟩))
  · exact Or.inr (Or.inr (Or.inr ⟨rfl, rfl⟩))

theorem carveDirs_reach (n : Nat) (recur : Grid → Int → Int → List Nat → Option (Grid × List Nat))
    (cx cy : Int)
    (hLE : ∀ g a b s g2 s2, recur g a b s = some (g2, s2) → GridLE g g2)
    (hR : ∀ g a b s g2 s2, inB n b a → recur g a b s = some (g2, s2) →
      g2 b a = 0 ∧ ∀ y x : Int, g2 y x ≠ g y x → Reach g2 n (a, b) (x, y))
    (hb : inB n cy cx) :
    ∀ (ds : List (Int × Int)) (g : Grid) (s : List Nat) (g' : Grid) (s' : List Nat),
      (∀ d ∈ ds, d ∈ dirs) → g cy cx = 0 →
      carveDirs n recur cx cy g ds s = some (g', s') →
      ∀ y x : Int, g' y x ≠ g y x → Reach g' n (cx, cy) (x, y) := by
  intro ds
  induction ds with
  | nil =>
    intro g s g' s' _ _ h y x hne
    simp only [carveDirs, Option.some.injEq, Prod.mk.injEq] at h
    exact absurd (h.1 ▸ rfl) hne
  | cons d ds ih =>
    intro g s g' s' hds hg0 h y x hne
    simp only [carveDirs] at h
    split at h
    · rename_i hc
      split at h
      · exact absurd h (by simp)
      · rename_i gs hrc
        obtain ⟨hnx0, hnxn, hny0, hnyn, hwall⟩ := hc
        have hdd := mem_dirs_comp (hds d (List.mem_cons_self d ds))
        have hLEgP := gridLE_setCell0 g (cy + d.2) (cx + d.1)
        have hLEPg1 := hLE _ _ _ _ gs.1 gs.2 hrc
        have hLEg1g' := carveDirs_LE n recur cx cy hLE ds gs.1 gs.2 g' s' h
        have inBfar : inB n (cy + d.2 * 2) (cx + d.1 * 2) := ⟨hny0, hnyn, hnx0, hnxn⟩
        have inBmid : inB n (cy + d.2) (cx + d.1) := by
          rcases hdd with ⟨e1, e2⟩ | ⟨e1, e2⟩ | ⟨e1, e2⟩ | ⟨e1, e2⟩ <;>
            exact ⟨by omega, by omega, by omega, by omega⟩
        have g'start : g' cy cx = 0 :=
          gridLE_zero hLEg1g' (gridLE_zero hLEPg1 (gridLE_zero hLEgP hg0))
        have midval : g' (cy + d.2) (cx + d.1) = 0 :=
          gridLE_zero hLEg1g' (gridLE_zero hLEPg1 (setCell_self g (cy + d.2) (cx + d.1) 0))
        have hRfar := hR _ _ _ _ gs.1 gs.2 inBfar hrc
        have farval : g' (cy + d.2 * 2) (cx + d.1 * 2) = 0 := gridLE_zero hLEg1g' hRfar.1
        have adj1 : Adj g' n (cx, cy) (cx + d.1, cy + d.2) := by
          refine ⟨⟨hb, Or.inl g'start⟩, ⟨inBmid, Or.inl midval⟩, ?_⟩
          rcases hdd with ⟨e1, e2⟩ | ⟨e1, e2⟩ | ⟨e1, e2⟩ | ⟨e1, e2⟩ <;> rw [e1, e2] <;> simp
        have adj2 : Adj g' n (cx + d.1, cy + d.2) (cx + d.1 * 2, cy + d.2 * 2) := by
          refine ⟨⟨inBmid, Or.inl midval⟩, ⟨inBfar, Or.inl farval⟩, ?_⟩
          rcases hdd with ⟨e1, e2⟩ | ⟨e1, e2⟩ | ⟨e1, e2⟩ | ⟨e1, e2⟩ <;> rw [e1, e2] <;> simp
        have reach_far : Reach g' n (cx, cy) (cx + d.1 * 2, cy + d.2 * 2) :=
          Relation.ReflTransGen.head adj1 (Relation.ReflTransGen.single adj2)
        by_cases h1 : g' y x = gs.1 y x
        · have h2 : gs.1 y x ≠ g y x := fun hh => hne (h1.trans hh)
          by_cases h3 : gs.1 y x = setCell g (cy + d.2) (cx + d.1) 0 y x
          · have h4 : setCell g (cy + d.2) (cx + d.1) 0 y x ≠ g y x :=
              fun hh => h2 (h3.trans hh)
            have h5 : y = cy + d.2 ∧ x = cx + d.1 := by
              by_contra hcon
              exact h4 (setCell_ne g (cy + d.2) (cx + d.1) 0 y x hcon)
            rw [h5.1, h5.2]
            exact Relation.ReflTransGen.single adj1
          · have h6 := hRfar.2 y x h3
            exact Relation.ReflTransGen.trans reach_far (reach_mono hLEg1g' h6)
        · have g1start : gs.1 cy cx = 0 :=
            gridLE_zero hLEPg1 (gridLE_zero hLEgP hg0)
          exact ih gs.1 gs.2 g' s' (fun e he => hds e (List.mem_cons_of_mem d he)) g1start h y x h1
    · exact ih g s g' s' (fun e he => hds e (List.mem_cons_of_mem d he)) hg0 h y x hne

theorem carvePath_reach (n : Nat) :
    ∀ (fuel : Nat) (g : Grid) (cx cy : Int) (s : List Nat) (g' : Grid) (s' : List Nat),
      inB n cy cx → carvePath n fuel g cx cy s = some (g', s') →
      g' cy cx = 0 ∧ ∀ y x : Int, g' y x ≠ g y x → Reach g' n (cx, cy) (x, y) := by
  intro fuel
  induction fuel with
  | zero => intro g cx cy s g' s' hb h; exact absurd h (by simp [carvePath])
  | succ fuel ih =>
    intro g cx cy s g' s' hb h
    simp only [carvePath] at h
    have hLE : ∀ g a b s g2 s2, carvePath n fuel g a b s = some (g2, s2) → GridLE g g2 :=
      fun g a b s g2 s2 hr => carvePath_LE n fuel g a b s g2 s2 hr
    have hR : ∀ g a b s g2 s2, inB n b a → carvePath n fuel g a b s = some (g2, s2) →
        g2 b a = 0 ∧ ∀ y x : Int, g2 y x ≠ g y x → Reach g2 n (a, b) (x, y) :=
      fun g a b s g2 s2 hbb hr => ih g a b s g2 s2 hbb hr
    have hset0 : setCell g cy cx 0 cy cx = 0 := setCell_self g cy cx 0
    have hLEd := carveDirs_LE n (carvePath n fuel) cx cy hLE _ _ _ _ _ h
    refine ⟨gridLE_zero hLEd hset0, ?_⟩
    intro y x hne
    by_cases h1 : g' y x = setCell g cy cx 0 y x
    · have h2 : setCell g cy cx 0 y x ≠ g y x := fun hh => hne (h1.trans hh)
      have h3 : y = cy ∧ x = cx := by
        by_contra hcon
        exact h2 (setCell_ne g cy cx 0 y x hcon)
      rw [h3.1, h3.2]
      exact Relation.ReflTransGen.refl
    · exact carveDirs_reach n (carvePath n fuel) cx cy hLE hR hb _ _ _ _ _
        (fun d hd => shuffle_subset dirs s hd) hset0 h y x h1

theorem carveDirs_interior (n : Nat)
    (recur : Grid → Int → Int → List Nat → Option (Grid × List Nat)) (cx cy : Int)
    (hn2 : (n : Int) % 2 = 1) (hpx : cx % 2 = 1) (hpy : cy % 2 = 1) (hb : inB n cy cx)
    (hrec : ∀ g a b s g2 s2, a % 2 = 1 → b % 2 = 1 → inB n b a →
      recur g a b s = some (g2, s2) → ∀ y x : Int, g2 y x ≠ g y x → interiorPt n y x) :
    ∀ (ds : List (Int × Int)) (g : Grid) (s : List Nat) (g' : Grid) (s' : List Nat),
      (∀ d ∈ ds, d ∈ dirs) →
      carveDirs n recur cx cy g ds s = some (g', s') →
      ∀ y x : Int, g' y x ≠ g y x → interiorPt n y x := by
  intro ds
  induction ds with
  | nil =>
    intro g s g' s' _ h y x hne
    simp only [carveDirs, Option.some.injEq, Prod.mk.injEq] at h
    exact absurd (h.1 ▸ rfl) hne
  | cons d ds ih =>
    intro g s g' s' hds h y x hne
    simp only [carveDirs] at h
    split at h
    · rename_i hc
      split at h
      · exact absurd h (by simp)
      · rename_i gs hrc
        obtain ⟨hnx0, hnxn, hny0, hnyn, hwall⟩ := hc
        have hdd := mem_dirs_comp (hds d (List.mem_cons_self d ds))
        by_cases h1 : g' y x = gs.1 y x
        · have h2 : gs.1 y x ≠ g y x := fun hh => hne (h1.trans hh)
          by_cases h3 : gs.1 y x = setCell g (cy + d.2) (cx + d.1) 0 y x
          · have h4 : setCell g (cy + d.2) (cx + d.1) 0 y x ≠ g y x :=
              fun hh => h2 (h3.trans hh)
            have h5 : y = cy + d.2 ∧ x = cx + d.1 := by
              by_contra hcon
              exact h4 (setCell_ne g (cy + d.2) (cx + d.1) 0 y x hcon)
            obtain ⟨hb1, hb2, hb3, hb4⟩ := hb
            rcases hdd with ⟨e1, e2⟩ | ⟨e1, e2⟩ | ⟨e1, e2⟩ | ⟨e1, e2⟩ <;>
              exact ⟨by omega, by omega, by omega, by omega⟩
          · exact hrec _ _ _ _ gs.1 gs.2 (by omega) (by omega)
              ⟨hny0, hnyn, hnx0, hnxn⟩ hrc y x h3
        · exact ih gs.1 gs.2 g' s' (fun e he => hds e (List.mem_cons_of_mem d he)) h y x h1
    · exact ih g s g' s' (fun e he => hds e (List.mem_cons_of_mem d he)) h y x hne

theorem carvePath_interior (n : Nat) (hn2 : (n : Int) % 2 = 1) :
    ∀ (fuel : Nat) (g : Grid) (cx cy : Int) (s : List Nat) (g' : Grid) (s' : List Nat),
      cx % 2 = 1 → cy % 2 = 1 → inB n cy cx →
      carvePath n fuel g cx cy s = some (g', s') →
      ∀ y x : Int, g' y x ≠ g y x → interiorPt n y x := by
  intro fuel
  induction fuel with
  | zero => intro g cx cy s g' s' _ _ _ h; exact absurd h (by simp [carvePath])
  | succ fuel ih =>
    intro g cx cy s g' s' hpx hpy hb h y x hne
    simp only [carvePath] at h
    by_cases h1 : g' y x = setCell g cy cx 0 y x
    · have h2 : setCell g cy cx 0 y x ≠ g y x := fun hh => hne (h1.trans hh)
      have h3 : y = cy ∧ x = cx := by
        by_contra hcon
        exact h2 (setCell_ne g cy cx 0 y x hcon)
      obtain ⟨hb1, hb2, hb3, hb4⟩ := hb
      exact ⟨by omega, by omega, by omega, by omega⟩
    · exact carveDirs_interior n (carvePath n fuel) cx cy hn2 hpx hpy hb
        (fun g a b s g2 s2 hpa hpb hbb hr => ih g a b s g2 s2 hpa hpb hbb hr)
        _ _ _ _ _ (fun d hd => shuffle_subset dirs s hd) h y x h1

theorem wallPar_congr (g : Grid) (n : Nat) {cx cy ax ay : Int}
    (h1 : ax % 2 = cx % 2) (h2 : ay % 2 = cy % 2) :
    wallPar g n ax ay = wallPar g n cx cy := by
  unfold wallPar
  congr 1
  apply Finset.filter_congr
  intro q _
  rw [h1, h2]

theorem wallPar_mono {g g' : Grid} (h : GridLE g g') (n : Nat) (cx cy : Int) :
    wallPar g' n cx cy ≤ wallPar g n cx cy := by
  apply Finset.card_le_card
  intro q hq
  simp only [Finset.mem_filter] at hq ⊢
  refine ⟨hq.1, hq.2.1, hq.2.2.1, ?_⟩
  rcases h (q.1 : Int) (q.2 : Int) with h2 | h2
  · rw [← h2]; exact hq.2.2.2
  · rw [hq.2.2.2] at h2; exact absurd h2 (by omega)

theorem wallPar_pos (g : Grid) (n : Nat) {cx cy : Int} (hb : inB n cy cx)
    (hw : g cy cx = 1) : 1 ≤ wallPar g n cx cy := by
  refine Nat.one_le_iff_ne_zero.mpr (Finset.card_ne_zero_of_mem (a := (cy.toNat, cx.toNat)) ?_)
  have ecy : (cy.toNat : Int) = cy := Int.toNat_of_nonneg hb.1
  have ecx : (cx.toNat : Int) = cx := Int.toNat_of_nonneg hb.2.2.1
  simp only [Finset.mem_filter, Finset.mem_product, Finset.mem_range]
  refine ⟨⟨by omega, by omega⟩, ?_, ?_, ?_⟩
  · rw [ecx]
  · rw [ecy]
  · rw [ecy, ecx]; exact hw

theorem wallPar_set0_lt (g : Grid) (n : Nat) {cx cy : Int} (hb : inB n cy cx)
    (hw : g cy cx = 1) : wallPar (setCell g cy cx 0) n cx cy < wallPar g n cx cy := by
  apply Finset.card_lt_card
  have ecy : (cy.toNat : Int) = cy := Int.toNat_of_nonneg hb.1
  have ecx : (cx.toNat : Int) = cx := Int.toNat_of_nonneg hb.2.2.1
  have hsub : (((Finset.range n) ×ˢ (Finset.range n)).filter
      (fun q => (q.2 : Int) % 2 = cx % 2 ∧ (q.1 : Int) % 2 = cy % 2
        ∧ setCell g cy cx 0 (q.1 : Int) (q.2 : Int) = 1)) ⊆
      (((Finset.range n) ×ˢ (Finset.range n)).filter
      (fun q => (q.2 : Int) % 2 = cx % 2 ∧ (q.1 : Int) % 2 = cy % 2
        ∧ g (q.1 : Int) (q.2 : Int) = 1)) := by
    intro q hq
    simp only [Finset.mem_filter] at hq ⊢
    refine ⟨hq.1, hq.2.1, hq.2.2.1, ?_⟩
    have h1 := hq.2.2.2
    by_cases h2 : (q.1 : Int) = cy ∧ (q.2 : Int) = cx
    · rw [setCell, if_pos h2] at h1; exact absurd h1 (by omega)
    · rw [setCell_ne g cy cx 0 _ _ h2] at h1; exact h1
  rw [Finset.ssubset_iff_of_subset hsub]
  refine ⟨(cy.toNat, cx.toNat), ?_, ?_⟩
  · simp only [Finset.mem_filter, Finset.mem_product, Finset.mem_range]
    refine ⟨⟨by omega, by omega⟩, ?_, ?_, ?_⟩
    · rw [ecx]
    · rw [ecy]
    · rw [ecy, ecx]; exact hw
  · simp only [Finset.mem_filter, Finset.mem_product, Finset.mem_range]
    intro hcon
    have h1 := hcon.2.2
    rw [ecy, ecx, setCell_self] at h1
    exact absurd h1 (by omega)

theorem carveDirs_isSome (n fuel : Nat)
    (recur : Grid → Int → Int → List Nat → Option (Grid × List Nat)) (cx cy : Int)
    (hLE : ∀ g a b s g2 s2, recur g a b s = some (g2, s2) → GridLE g g2)
    (hS : ∀ g a b s, inB n b a → g b a = 1 → a % 2 = cx % 2 → b % 2 = cy % 2 →
      wallPar g n cx cy ≤ fuel → (recur g a b s).isSome = true) :
    ∀ (ds : List (Int × Int)) (g : Grid) (s : List Nat),
      (∀ d ∈ ds, d ∈ dirs) → wallPar g n cx cy ≤ fuel →
      (carveDirs n recur cx cy g ds s).isSome = true := by
  intro ds
  induction ds with
  | nil => intro g s _ _; simp [carveDirs]
  | cons d ds ih =>
    intro g s hds hW
    simp only [carveDirs]
    split
    · rename_i hc
      obtain ⟨hnx0, hnxn, hny0, hnyn, hwall⟩ := hc
      have hdd := mem_dirs_comp (hds d (List.mem_cons_self d ds))
      have hne : ¬((cy + d.2 * 2) = cy + d.2 ∧ (cx + d.1 * 2) = cx + d.1) := by
        rcases hdd with ⟨e1, e2⟩ | ⟨e1, e2⟩ | ⟨e1, e2⟩ | ⟨e1, e2⟩ <;> omega
      have hPwall : setCell g (cy + d.2) (cx + d.1) 0 (cy + d.2 * 2) (cx + d.1 * 2) = 1 := by
        rw [setCell_ne g (cy + d.2) (cx + d.1) 0 _ _ hne]
        exact hwall
      have hWP : wallPar (setCell g (cy + d.2) (cx + d.1) 0) n cx cy ≤ fuel :=
        le_trans (wallPar_mono (gridLE_setCell0 g (cy + d.2) (cx + d.1)) n cx cy) hW
      have hSome := hS (setCell g (cy + d.2) (cx + d.1) 0) (cx + d.1 * 2) (cy + d.2 * 2) s
        ⟨hny0, hnyn, hnx0, hnxn⟩ hPwall (by omega) (by omega) hWP
      obtain ⟨gs, hgs⟩ := Option.isSome_iff_exists.mp hSome
      rw [hgs]
      apply ih gs.1 gs.2 (fun e he => hds e (List.mem_cons_of_mem d he))
      exact le_trans (wallPar_mono (hLE _ _ _ _ gs.1 gs.2 hgs) n cx cy) hWP
    · exact ih g s (fun e he => hds e (List.mem_cons_of_mem d he)) hW

theorem carvePath_isSome (n : Nat) :
    ∀ (fuel : Nat) (g : Grid) (cx cy : Int) (s : List Nat),
      inB n cy cx → g cy cx = 1 → wallPar g n cx cy ≤ fuel →
      (carvePath n fuel g cx cy s).isSome = true := by
  intro fuel
  induction fuel with
  | zero =>
    intro g cx cy s hb hw hW
    exact absurd hW (by have := wallPar_pos g n hb hw; omega)
  | succ fuel ih =>
    intro g cx cy s hb hw hW
    simp only [carvePath]
    have hWP : wallPar (setCell g cy cx 0) n cx cy ≤ fuel := by
      have := wallPar_set0_lt g n hb hw; omega
    apply carveDirs_isSome n fuel (carvePath n fuel) cx cy
      (fun g a b s g2 s2 hr => carvePath_LE n fuel g a b s g2 s2 hr)
      ?_ _ _ _ (fun d hd => shuffle_subset dirs s hd) hWP
    intro g2 a b s2 hb2 hw2 hpa hpb hW2
    apply ih g2 a b s2 hb2 hw2
    rw [wallPar_congr g2 n hpa hpb]
    exact hW2

theorem card_filter_parity_le (n : Nat) (c : Int) :
    ((Finset.range n).filter (fun y : Nat => (y : Int) % 2 = c)).card ≤ (n + 1) / 2 := by
  have h : ((Finset.range n).filter (fun y : Nat => (y : Int) % 2 = c)).card ≤
      (Finset.range ((n + 1) / 2)).card := by
    apply Finset.card_le_card_of_injOn (fun y => y / 2)
    · intro a ha
      simp only [Finset.mem_filter, Finset.mem_range] at ha ⊢
      omega
    · intro a ha b hb hab
      simp only [Finset.coe_filter, Set.mem_setOf_eq, Finset.mem_range] at ha hb
      simp only at hab
      obtain ⟨ha1, ha2⟩ := ha
      obtain ⟨hb1, hb2⟩ := hb
      omega
  simpa using h

theorem wallPar_le_carveFuel (g : Grid) (n : Nat) (cx cy : Int) :
    wallPar g n cx cy ≤ carveFuel n := by
  have hsub : (((Finset.range n) ×ˢ (Finset.range n)).filter
      (fun q => (q.2 : Int) % 2 = cx % 2 ∧ (q.1 : Int) % 2 = cy % 2
        ∧ g (q.1 : Int) (q.2 : Int) = 1)) ⊆
      ((Finset.range n).filter (fun y : Nat => (y : Int) % 2 = cy % 2)) ×ˢ
      ((Finset.range n).filter (fun x : Nat => (x : Int) % 2 = cx % 2)) := by
    intro q hq
    simp only [Finset.mem_filter, Finset.mem_product] at hq ⊢
    exact ⟨⟨hq.1.1, hq.2.2.1⟩, hq.1.2, hq.2.1⟩
  calc wallPar g n cx cy ≤ (((Finset.range n).filter (fun y : Nat => (y : Int) % 2 = cy % 2)) ×ˢ
      ((Finset.range n).filter (fun x : Nat => (x : Int) % 2 = cx % 2))).card :=
        Finset.card_le_card hsub
    _ = ((Finset.range n).filter (fun y : Nat => (y : Int) % 2 = cy % 2)).card *
        ((Finset.range n).filter (fun x : Nat => (x : Int) % 2 = cx % 2)).card :=
        Finset.card_product _ _
    _ ≤ ((n + 1) / 2) * ((n + 1) / 2) :=
        Nat.mul_le_mul (card_filter_parity_le n _) (card_filter_parity_le n _)

theorem jsRandFloor_le (r n : Nat) : jsRandFloor r (n - 2) ≤ n - 3 := by
  unfold jsRandFloor
  split
  · omega
  · rename_i h
    have := Nat.mod_lt r (Nat.pos_of_ne_zero h)
    omega

theorem exitLoop_spec (n : Nat) (sx sy : Int) (g0 : Grid) :
    ∀ (fuel : Nat) (s : List Nat) (g : Grid) (wx wz : ℚ),
      exitLoop n sx sy g0 fuel s = some (g, wx, wz) →
      ∃ a b : Nat, a ≤ n - 3 ∧ b ≤ n - 3 ∧
        g0 ((b : Int) + 1) ((a : Int) + 1) = 0 ∧
        ¬((a : Int) + 1 = sx ∧ (b : Int) + 1 = sy) ∧
        g = setCell g0 ((b : Int) + 1) ((a : Int) + 1) 2 ∧
        wx = ((((a : Int) + 1 : Int) : ℚ) - (n : ℚ) / 2 + 1 / 2) * CELL_SIZE ∧
        wz = ((((b : Int) + 1 : Int) : ℚ) - (n : ℚ) / 2 + 1 / 2) * CELL_SIZE := by
  intro fuel
  induction fuel with
  | zero => intro s g wx wz h; exact absurd h (by simp [exitLoop])
  | succ fuel ih =>
    intro s g wx wz h
    simp only [exitLoop] at h
    split at h
    · rename_i hcond
      simp only [Option.some.injEq, Prod.mk.injEq] at h
      exact ⟨jsRandFloor (s.headD 0) (n - 2), jsRandFloor (s.tail.headD 0) (n - 2),
        jsRandFloor_le _ n, jsRandFloor_le _ n, hcond.1, hcond.2,
        h.1.symm, h.2.1.symm, h.2.2.symm⟩
    · exact ih s.tail.tail g wx wz h

theorem carveDirs_stuck (n : Nat)
    (recur : Grid → Int → Int → List Nat → Option (Grid × List Nat)) (cx cy : Int) :
    ∀ (ds : List (Int × Int)) (g : Grid) (s : List Nat),
      (∀ d ∈ ds, ¬(0 ≤ cx + d.1 * 2 ∧ cx + d.1 * 2 < (n : Int) ∧ 0 ≤ cy + d.2 * 2
        ∧ cy + d.2 * 2 < (n : Int) ∧ g (cy + d.2 * 2) (cx + d.1 * 2) = 1)) →
      carveDirs n recur cx cy g ds s = some (g, s) := by
  intro ds
  induction ds with
  | nil => intro g s _; simp [carveDirs]
  | cons d ds ih =>
    intro g s hds
    simp only [carveDirs]
    rw [if_neg (hds d (List.mem_cons_self d ds))]
    exact ih g s (fun e he => hds e (List.mem_cons_of_mem d he))

theorem initGrid_inB {n : Nat} {y x : Int} (h : inB n y x) : initGrid n y x = 1 := by
  simp only [initGrid]
  rw [if_pos ⟨h.1, h.2.1, h.2.2.1, h.2.2.2⟩]

theorem carve_val_cases {n fuel : Nat} {g1 : Grid} {sx sy : Int} {s s1 : List Nat}
    (h : carvePath n fuel (initGrid n) sx sy s = some (g1, s1)) {y x : Int}
    (hb : inB n y x) : g1 y x = 0 ∨ g1 y x = 1 := by
  rcases carvePath_LE n fuel (initGrid n) sx sy s g1 s1 h y x with h2 | h2
  · rw [h2, initGrid_inB hb]; exact Or.inr rfl
  · exact Or.inl h2

theorem floor_add_half (r : Int) : ⌊(r : ℚ) + 1 / 2⌋ = r := by
  rw [Int.floor_eq_iff]
  constructor
  · linarith
  · linarith

theorem floor_eval {q : ℚ} {z : Int} (h1 : (z : ℚ) ≤ q) (h2 : q < z + 1) : ⌊q⌋ = z :=
  Int.floor_eq_iff.mpr ⟨h1, h2⟩

/-- C9: for every finite grid size and in-bounds start cell, the recursive
carve terminates.  Each recursive call enters a cell that was a wall and is
immediately marked path, all visited cells lie in the start cell's stride-2
parity class, so the recursion depth is bounded by the size of that class,
at most `⌈N/2⌉² = carveFuel N`; with that much fuel (fuel counts remaining
recursion depth) `carvePath` never runs out. -/
theorem carvePath_terminates (n : Nat) (sx sy : Int) (s : List Nat) (hb : inB n sy sx) :
    (carvePath n (carveFuel n) (initGrid n) sx sy s).isSome = true :=
  carvePath_isSome n (carveFuel n) (initGrid n) sx sy s hb (initGrid_inB hb)
    (wallPar_le_carveFuel (initGrid n) n sx sy)

/-- Witness for C9: the carve from the in-bounds cell `(2, 2)` of a 5×5
grid terminates within fuel `carveFuel 5 = 9`. -/
theorem carvePath_terminates_witness :
    inB 5 2 2 ∧ (carvePath 5 (carveFuel 5) (initGrid 5) 2 2 []).isSome = true :=
  ⟨by decide, carvePath_terminates 5 2 2 [] (by decide)⟩

/-- C1: for every odd size ≥ 5, interior start, and random stream for which
generation succeeds, every non-wall cell (path `0` or exit `2`) of the
produced grid is reachable from the start cell by 4-directional steps
through non-wall cells. -/
theorem generateMaze_connected (n : Nat) (sx sy : Int) (s : List Nat) (exitFuel : Nat)
    (g : Grid) (ex ez : ℚ) (hodd : Odd n) (h5 : 5 ≤ n) (hint : interiorStart n sx sy)
    (hgen : generateMaze n sx sy s exitFuel = some (g, ex, ez)) :
    ∀ y x : Int, inB n y x → g y x = 0 ∨ g y x = 2 → Reach g n (sx, sy) (x, y) := by
  intro y x hb hval
  unfold generateMaze at hgen
  rcases hc : carvePath n (carveFuel n) (initGrid n) sx sy s with _ | gs1
  · rw [hc] at hgen; exact absurd hgen (by simp)
  rw [hc] at hgen
  obtain ⟨a, b, ha, hbb, hg0, hne, hgeq, hwx, hwz⟩ :=
    exitLoop_spec n sx sy gs1.1 exitFuel gs1.2 g ex ez hgen
  have hn5 : (5 : Int) ≤ (n : Int) := by exact_mod_cast h5
  have hbS : inB n sy sx := by
    obtain ⟨i1, i2, i3, i4⟩ := hint
    exact ⟨by omega, by omega, by omega, by omega⟩
  have hreach := carvePath_reach n (carveFuel n) (initGrid n) sx sy s gs1.1 gs1.2 hbS hc
  have hnw : ∀ p, nonWall gs1.1 n p → nonWall g n p := by
    intro p hp
    refine ⟨hp.1, ?_⟩
    by_cases hpt : p.2 = (b : Int) + 1 ∧ p.1 = (a : Int) + 1
    · rw [hgeq, setCell, if_pos hpt]
      exact Or.inr rfl
    · rw [hgeq, setCell_ne gs1.1 ((b : Int) + 1) ((a : Int) + 1) 2 p.2 p.1 hpt]
      exact hp.2
  have h0 : gs1.1 y x = 0 := by
    by_cases hq : y = (b : Int) + 1 ∧ x = (a : Int) + 1
    · rw [hq.1, hq.2]; exact hg0
    · have hval1 : g y x = gs1.1 y x := by
        rw [hgeq]; exact setCell_ne gs1.1 ((b : Int) + 1) ((a : Int) + 1) 2 y x hq
      rcases carve_val_cases hc hb with h2 | h2
      · exact h2
      · rw [hval1, h2] at hval
        rcases hval with h3 | h3 <;> exact absurd h3 (by omega)
  have hchanged : gs1.1 y x ≠ initGrid n y x := by
    rw [h0, initGrid_inB hb]; omega
  exact reach_congr hnw (hreach.2 y x hchanged)

/-- C2: for every odd size ≥ 5, interior start, and random stream for which
generation succeeds, the produced grid holds exactly one exit cell (`2`),
the start cell is not the exit, and every in-bounds cell is wall, path, or
exit — so every non-wall cell other than the exit is a path cell. -/
theorem generateMaze_exit_unique (n : Nat) (sx sy : Int) (s : List Nat) (exitFuel : Nat)
    (g : Grid) (ex ez : ℚ) (hodd : Odd n) (h5 : 5 ≤ n) (hint : interiorStart n sx sy)
    (hgen : generateMaze n sx sy s exitFuel = some (g, ex, ez)) :
    exitCount g n = 1 ∧ g sy sx ≠ 2 ∧
      (∀ y x : Int, inB n y x → g y x ≠ 1 → g y x = 0 ∨ g y x = 2) := by
  unfold generateMaze at hgen
  rcases hc : carvePath n (carveFuel n) (initGrid n) sx sy s with _ | gs1
  · rw [hc] at hgen; exact absurd hgen (by simp)
  rw [hc] at hgen
  obtain ⟨a, b, ha, hbb, hg0, hne, hgeq, hwx, hwz⟩ :=
    exitLoop_spec n sx sy gs1.1 exitFuel gs1.2 g ex ez hgen
  have hn5 : (5 : Int) ≤ (n : Int) := by exact_mod_cast h5
  have hval2 : ∀ y x : Int, inB n y x → ¬(y = (b : Int) + 1 ∧ x = (a : Int) + 1) →
      g y x = 0 ∨ g y x = 1 := by
    intro y x hb2 hq
    rw [hgeq, setCell_ne gs1.1 ((b : Int) + 1) ((a : Int) + 1) 2 y x hq]
    exact carve_val_cases hc hb2
  refine ⟨?_, ?_, ?_⟩
  · unfold exitCount
    rw [show (((Finset.range n) ×ˢ (Finset.range n)).filter
        (fun q => g (q.1 : Int) (q.2 : Int) = 2)) = {(b + 1, a + 1)} from ?_]
    · exact Finset.card_singleton _
    · apply Finset.ext
      intro q
      simp only [Finset.mem_filter, Finset.mem_product, Finset.mem_range,
        Finset.mem_singleton]
      constructor
      · rintro ⟨⟨hq1, hq2⟩, hq3⟩
        by_cases hq : (q.1 : Int) = (b : Int) + 1 ∧ (q.2 : Int) = (a : Int) + 1
        · have e1 : q.1 = b + 1 := by omega
          have e2 : q.2 = a + 1 := by omega
          rw [Prod.ext_iff]
          exact ⟨e1, e2⟩
        · rcases hval2 (q.1 : Int) (q.2 : Int) ⟨by omega, by omega, by omega, by omega⟩ hq
            with h2 | h2 <;> rw [hq3] at h2 <;> exact absurd h2 (by omega)
      · intro hq
        rw [hq]
        refine ⟨⟨by omega, by omega⟩, ?_⟩
        rw [hgeq]
        have : ((b + 1 : Nat) : Int) = (b : Int) + 1 := by push_cast; ring
        have h2 : ((a + 1 : Nat) : Int) = (a : Int) + 1 := by push_cast; ring
        rw [this, h2, setCell_self]
  · have hq : ¬(sy = (b : Int) + 1 ∧ sx = (a : Int) + 1) := by
      intro hh
      exact hne ⟨hh.2.symm, hh.1.symm⟩
    obtain ⟨i1, i2, i3, i4⟩ := hint
    rcases hval2 sy sx ⟨by omega, by omega, by omega, by omega⟩ hq with h2 | h2 <;> omega
  · intro y x hb2 hw
    by_cases hq : y = (b : Int) + 1 ∧ x = (a : Int) + 1
    · right
      rw [hgeq, hq.1, hq.2, setCell_self]
    · rcases hval2 y x hb2 hq with h2 | h2
      · exact Or.inl h2
      · exact absurd h2 hw

/-- C10: for every odd size ≥ 5 and in-bounds start cell with both
coordinates odd, generation only ever carves cells with both coordinates in
`[1, size-2]`: the whole perimeter of the produced grid is still wall, and
the exit cell lies strictly inside the border. -/
theorem generateMaze_enclosed (n : Nat) (sx sy : Int) (s : List Nat) (exitFuel : Nat)
    (g : Grid) (ex ez : ℚ) (hodd : Odd n) (h5 : 5 ≤ n)
    (hpx : sx % 2 = 1) (hpy : sy % 2 = 1) (hb : inB n sy sx)
    (hgen : generateMaze n sx sy s exitFuel = some (g, ex, ez)) :
    (∀ t : Int, 0 ≤ t → t < (n : Int) →
        g 0 t = 1 ∧ g ((n : Int) - 1) t = 1 ∧ g t 0 = 1 ∧ g t ((n : Int) - 1) = 1) ∧
    (∀ y x : Int, inB n y x → g y x = 2 → interiorPt n y x) := by
  unfold generateMaze at hgen
  rcases hc : carvePath n (carveFuel n) (initGrid n) sx sy s with _ | gs1
  · rw [hc] at hgen; exact absurd hgen (by simp)
  rw [hc] at hgen
  obtain ⟨a, b, ha, hbb, hg0, hne, hgeq, hwx, hwz⟩ :=
    exitLoop_spec n sx sy gs1.1 exitFuel gs1.2 g ex ez hgen
  have hn5 : (5 : Int) ≤ (n : Int) := by exact_mod_cast h5
  have hn2 : (n : Int) % 2 = 1 := by
    have := Nat.odd_iff.mp hodd
    omega
  have hinterior := carvePath_interior n hn2 (carveFuel n) (initGrid n) sx sy s gs1.1 gs1.2
    hpx hpy hb hc
  have hexitInt : interiorPt n ((b : Int) + 1) ((a : Int) + 1) := by
    have h3 : (3 : Nat) ≤ n := by omega
    refine ⟨by omega, ?_, by omega, ?_⟩ <;> omega
  have hkeep : ∀ y x : Int, inB n y x → ¬interiorPt n y x → g y x = 1 := by
    intro y x hbyx hnint
    have h1 : gs1.1 y x = initGrid n y x := by
      by_contra hcon
      exact hnint (hinterior y x hcon)
    have hpt : ¬(y = (b : Int) + 1 ∧ x = (a : Int) + 1) := by
      rintro ⟨e1, e2⟩
      rw [e1, e2] at hnint
      exact hnint hexitInt
    rw [hgeq, setCell_ne gs1.1 ((b : Int) + 1) ((a : Int) + 1) 2 y x hpt, h1,
      initGrid_inB hbyx]
  constructor
  · intro t ht0 htn
    refine ⟨?_, ?_, ?_, ?_⟩
    · exact hkeep 0 t ⟨by omega, by omega, ht0, htn⟩ (by intro hh; omega)
    · exact hkeep ((n : Int) - 1) t ⟨by omega, by omega, ht0, htn⟩ (by intro hh; omega)
    · exact hkeep t 0 ⟨ht0, htn, by omega, by omega⟩ (by intro hh; omega)
    · exact hkeep t ((n : Int) - 1) ⟨ht0, htn, by omega, by omega⟩ (by intro hh; omega)
  · intro y x hbyx h2
    by_cases hq : y = (b : Int) + 1 ∧ x = (a : Int) + 1
    · rw [hq.1, hq.2]
      exact hexitInt
    · have := hgeq ▸ h2
      rw [setCell_ne gs1.1 ((b : Int) + 1) ((a : Int) + 1) 2 y x hq] at this
      rcases carve_val_cases hc hbyx with h3 | h3 <;> rw [h3] at this <;>
        exact absurd this (by omega)

theorem checkCollision_cases (px pz : ℚ) (maze : Grid) (n : Nat) :
    checkCollision px pz maze n =
      if ⌊px + (n : ℚ) / 2⌋ < 0 ∨ (n : Int) ≤ ⌊px + (n : ℚ) / 2⌋ ∨
          ⌊pz + (n : ℚ) / 2⌋ < 0 ∨ (n : Int) ≤ ⌊pz + (n : ℚ) / 2⌋ then (true, false)
      else if maze ⌊pz + (n : ℚ) / 2⌋ ⌊px + (n : ℚ) / 2⌋ = 1 then (true, false)
      else if maze ⌊pz + (n : ℚ) / 2⌋ ⌊px + (n : ℚ) / 2⌋ = 2 then (false, true)
      else (false, false) := rfl

/-- C4: if either grid index computed by `floor(coord + size/2)` falls
outside `[0, size)`, `checkCollision` classifies the position as blocked
without consulting the grid (the result is the same for every grid), so
the grid lookup it performs is always in bounds; and for in-bounds indices
it reports blocked exactly when the cell is a wall (`1`), and open when the
cell is path (`0`) or exit (`2`). -/
theorem checkCollision_bounds (px pz : ℚ) (n : Nat) (maze : Grid) :
    ((⌊px + (n : ℚ) / 2⌋ < 0 ∨ (n : Int) ≤ ⌊px + (n : ℚ) / 2⌋ ∨
        ⌊pz + (n : ℚ) / 2⌋ < 0 ∨ (n : Int) ≤ ⌊pz + (n : ℚ) / 2⌋) →
      ∀ maze2 : Grid, checkCollision px pz maze2 n = (true, false)) ∧
    (0 ≤ ⌊px + (n : ℚ) / 2⌋ → ⌊px + (n : ℚ) / 2⌋ < (n : Int) →
     0 ≤ ⌊pz + (n : ℚ) / 2⌋ → ⌊pz + (n : ℚ) / 2⌋ < (n : Int) →
      ((checkCollision px pz maze n).1 = true ↔
        maze ⌊pz + (n : ℚ) / 2⌋ ⌊px + (n : ℚ) / 2⌋ = 1) ∧
      (maze ⌊pz + (n : ℚ) / 2⌋ ⌊px + (n : ℚ) / 2⌋ = 0 ∨
        maze ⌊pz + (n : ℚ) / 2⌋ ⌊px + (n : ℚ) / 2⌋ = 2 →
        (checkCollision px pz maze n).1 = false)) := by
  constructor
  · intro h maze2
    rw [checkCollision_cases, if_pos h]
  · intro h1 h2 h3 h4
    rw [checkCollision_cases, if_neg (by omega)]
    by_cases hw : maze ⌊pz + (n : ℚ) / 2⌋ ⌊px + (n : ℚ) / 2⌋ = 1
    · rw [if_pos hw]
      exact ⟨by simp [hw], fun hc => by rcases hc with hc | hc <;> omega⟩
    · rw [if_neg hw]
      by_cases he : maze ⌊pz + (n : ℚ) / 2⌋ ⌊px + (n : ℚ) / 2⌋ = 2
      · rw [if_pos he]
        exact ⟨by simp [hw], fun _ => rfl⟩
      · rw [if_neg he]
        exact ⟨by simp [hw], fun _ => rfl⟩

/-- Witness for C4: position far outside a 5×5 grid is blocked for the
demo grid, and at the in-bounds origin-cell position the blocked result is
equivalent to that cell being a wall. -/
theorem checkCollision_bounds_witness :
    checkCollision 100 0 demoMaze 5 = (true, false) ∧
    ((checkCollision 0 0 demoMaze 5).1 = true ↔
      demoMaze ⌊(0 : ℚ) + ((5 : Nat) : ℚ) / 2⌋ ⌊(0 : ℚ) + ((5 : Nat) : ℚ) / 2⌋ = 1) := by
  have e1 : ⌊(100 : ℚ) + ((5 : Nat) : ℚ) / 2⌋ = 102 := floor_eval (by norm_num) (by norm_num)
  have e2 : ⌊(0 : ℚ) + ((5 : Nat) : ℚ) / 2⌋ = 2 := floor_eval (by norm_num) (by norm_num)
  exact ⟨(checkCollision_bounds 100 0 5 demoMaze).1 (by rw [e1, e2]; decide) demoMaze,
    ((checkCollision_bounds 0 0 5 demoMaze).2 (by rw [e2]; decide) (by rw [e2]; decide)
      (by rw [e2]; decide) (by rw [e2]; decide)).1⟩

/-- C5: when the combined displacement is blocked, the x-only shift is
open, and the z-only shift is blocked, movement resolution returns the
x-only-shifted position (x-axis slide has priority over z-axis slide). -/
theorem resolveMove_slide_x (pos vel : ℚ × ℚ) (maze : Grid) (n : Nat)
    (hfull : (checkCollision (pos.1 + vel.1) (pos.2 + vel.2) maze n).1 = true)
    (hx : (checkCollision (pos.1 + vel.1) pos.2 maze n).1 = false)
    (hz : (checkCollision pos.1 (pos.2 + vel.2) maze n).1 = true) :
    (resolveMove pos vel maze n).pos = (pos.1 + vel.1, pos.2) := by
  simp [resolveMove, hfull, hx]

/-- Witness for C5: on the demo grid, a diagonal move into the corner wall
from position `(-1, -1)` with velocity `(1, 1)` slides along x. -/
theorem resolveMove_slide_x_witness :
    (resolveMove (-1, -1) (1, 1) demoMaze 5).pos = ((-1 : ℚ) + 1, (-1 : ℚ)) := by
  have e1 : ⌊(-1 : ℚ) + 1 + ((5 : Nat) : ℚ) / 2⌋ = 2 := floor_eval (by norm_num) (by norm_num)
  have e2 : ⌊(-1 : ℚ) + ((5 : Nat) : ℚ) / 2⌋ = 1 := floor_eval (by norm_num) (by norm_num)
  apply resolveMove_slide_x (-1, -1) (1, 1) demoMaze 5
  · show (checkCollision (-1 + 1) (-1 + 1) demoMaze 5).1 = true
    rw [checkCollision_cases, e1]; decide
  · show (checkCollision (-1 + 1) (-1) demoMaze 5).1 = false
    rw [checkCollision_cases, e1, e2]; decide
  · show (checkCollision (-1) (-1 + 1) demoMaze 5).1 = true
    rw [checkCollision_cases, e1, e2]; decide

/-- C6: when the combined, x-only, and z-only moves are all blocked,
movement resolution keeps the position unchanged and zeroes the carried
velocity. -/
theorem resolveMove_blocked (pos vel : ℚ × ℚ) (maze : Grid) (n : Nat)
    (hfull : (checkCollision (pos.1 + vel.1) (pos.2 + vel.2) maze n).1 = true)
    (hx : (checkCollision (pos.1 + vel.1) pos.2 maze n).1 = true)
    (hz : (checkCollision pos.1 (pos.2 + vel.2) maze n).1 = true) :
    (resolveMove pos vel maze n).pos = pos ∧ (resolveMove pos vel maze n).vel = (0, 0) := by
  constructor <;> simp [resolveMove, hfull, hx, hz]

/-- Witness for C6: inside an all-wall grid every candidate is blocked, the
position stays and the velocity is zeroed. -/
theorem resolveMove_blocked_witness :
    (resolveMove (-1, -1) (1, 1) wallMaze 5).pos = ((-1 : ℚ), (-1 : ℚ)) ∧
    (resolveMove (-1, -1) (1, 1) wallMaze 5).vel = (0, 0) := by
  have e1 : ⌊(-1 : ℚ) + 1 + ((5 : Nat) : ℚ) / 2⌋ = 2 := floor_eval (by norm_num) (by norm_num)
  have e2 : ⌊(-1 : ℚ) + ((5 : Nat) : ℚ) / 2⌋ = 1 := floor_eval (by norm_num) (by norm_num)
  apply resolveMove_blocked (-1, -1) (1, 1) wallMaze 5
  · show (checkCollision (-1 + 1) (-1 + 1) wallMaze 5).1 = true
    rw [checkCollision_cases, e1]; decide
  · show (checkCollision (-1 + 1) (-1) wallMaze 5).1 = true
    rw [checkCollision_cases, e1, e2]; decide
  · show (checkCollision (-1) (-1 + 1) wallMaze 5).1 = true
    rw [checkCollision_cases, e1, e2]; decide

theorem resolveMove_zero_eq (pos : ℚ × ℚ) (maze : Grid) (n : Nat) :
    resolveMove pos (0, 0) maze n =
      if (checkCollision pos.1 pos.2 maze n).1 = false
      then ⟨pos, (0, 0), (checkCollision pos.1 pos.2 maze n).2⟩
      else ⟨pos, (0, 0), false⟩ := by
  show (if (checkCollision (pos.1 + 0) (pos.2 + 0) maze n).1 = false
      then MoveResult.mk (pos.1 + 0, pos.2 + 0) (0, 0)
        (checkCollision (pos.1 + 0) (pos.2 + 0) maze n).2
      else if (checkCollision (pos.1 + 0) pos.2 maze n).1 = false
      then MoveResult.mk (pos.1 + 0, pos.2) (0, 0) (checkCollision (pos.1 + 0) pos.2 maze n).2
      else if (checkCollision pos.1 (pos.2 + 0) maze n).1 = false
      then MoveResult.mk (pos.1, pos.2 + 0) (0, 0) (checkCollision pos.1 (pos.2 + 0) maze n).2
      else MoveResult.mk pos (0, 0) false) = _
  simp only [add_zero, Prod.mk.eta]
  by_cases hc : (checkCollision pos.1 pos.2 maze n).1 = false
  · rw [if_pos hc, if_pos hc]
  · simp only [if_neg hc]

/-- C7: resolving movement with the zero displacement never moves the
player: the position is returned unchanged, and `reachedExit` is `true`
exactly when the current position itself lies in an in-bounds exit cell. -/
theorem resolveMove_zero (pos : ℚ × ℚ) (maze : Grid) (n : Nat) :
    (resolveMove pos (0, 0) maze n).pos = pos ∧
      ((resolveMove pos (0, 0) maze n).reachedExit = true ↔
        (0 ≤ ⌊pos.1 + (n : ℚ) / 2⌋ ∧ ⌊pos.1 + (n : ℚ) / 2⌋ < (n : Int) ∧
         0 ≤ ⌊pos.2 + (n : ℚ) / 2⌋ ∧ ⌊pos.2 + (n : ℚ) / 2⌋ < (n : Int) ∧
         maze ⌊pos.2 + (n : ℚ) / 2⌋ ⌊pos.1 + (n : ℚ) / 2⌋ = 2)) := by
  rw [resolveMove_zero_eq, checkCollision_cases]
  by_cases h1 : ⌊pos.1 + (n : ℚ) / 2⌋ < 0 ∨ (n : Int) ≤ ⌊pos.1 + (n : ℚ) / 2⌋ ∨
      ⌊pos.2 + (n : ℚ) / 2⌋ < 0 ∨ (n : Int) ≤ ⌊pos.2 + (n : ℚ) / 2⌋
  · rw [if_pos h1]
    refine ⟨by simp, ?_⟩
    simp only [if_neg (by simp : ¬((true, false).1 = false))]
    constructor
    · intro hcc; exact absurd hcc (by simp)
    · intro hcc; omega
  · rw [if_neg h1]
    by_cases h2 : maze ⌊pos.2 + (n : ℚ) / 2⌋ ⌊pos.1 + (n : ℚ) / 2⌋ = 1
    · rw [if_pos h2]
      refine ⟨by simp, ?_⟩
      simp only [if_neg (by simp : ¬((true, false).1 = false))]
      constructor
      · intro hcc; exact absurd hcc (by simp)
      · intro hcc; omega
    · rw [if_neg h2]
      by_cases h3 : maze ⌊pos.2 + (n : ℚ) / 2⌋ ⌊pos.1 + (n : ℚ) / 2⌋ = 2
      · rw [if_pos h3]
        refine ⟨by simp, ?_⟩
        simp only [if_pos (by simp : (false, true).1 = false)]
        constructor
        · intro _; exact ⟨by omega, by omega, by omega, by omega, h3⟩
        · intro _; simp
      · rw [if_neg h3]
        refine ⟨by simp, ?_⟩
        simp only [if_pos (by simp : (false, false).1 = false)]
        constructor
        · intro hcc; exact absurd hcc (by simp)
        · intro hcc; exact absurd hcc.2.2.2.2 h3

/-- C8: with `CELL_SIZE = 1`, grid-to-world then world-to-grid is the
identity on cell centers (`⌊(i - N/2 + 0.5) * CELL_SIZE + N/2⌋ = i`); in
particular the exit world position returned by `generateMaze` classifies
back to the exit cell, so `checkCollision` there reports the exit event
(and no wall collision). -/
theorem exit_roundtrip (n : Nat) (i : Int) (sx sy : Int) (s : List Nat) (exitFuel : Nat)
    (g : Grid) (ex ez : ℚ) :
    (0 ≤ i → i < (n : Int) →
      ⌊((i : ℚ) - (n : ℚ) / 2 + 1 / 2) * CELL_SIZE + (n : ℚ) / 2⌋ = i) ∧
    (2 ≤ n → generateMaze n sx sy s exitFuel = some (g, ex, ez) →
      checkCollision ex ez g n = (false, true)) := by
  have key : ∀ r : Int, ⌊((r : ℚ) - (n : ℚ) / 2 + 1 / 2) * CELL_SIZE + (n : ℚ) / 2⌋ = r := by
    intro r
    rw [show ((r : ℚ) - (n : ℚ) / 2 + 1 / 2) * CELL_SIZE + (n : ℚ) / 2 = (r : ℚ) + 1 / 2 by
      unfold CELL_SIZE; ring]
    exact floor_add_half r
  refine ⟨fun _ _ => key i, fun hn2 hgen => ?_⟩
  unfold generateMaze at hgen
  rcases hc : carvePath n (carveFuel n) (initGrid n) sx sy s with _ | gs1
  · rw [hc] at hgen; exact absurd hgen (by simp)
  rw [hc] at hgen
  obtain ⟨a, b, ha, hbb, hg0, hne, hgeq, hwx, hwz⟩ :=
    exitLoop_spec n sx sy gs1.1 exitFuel gs1.2 g ex ez hgen
  have egx : ⌊ex + (n : ℚ) / 2⌋ = (a : Int) + 1 := by
    rw [hwx]; exact key ((a : Int) + 1)
  have egz : ⌊ez + (n : ℚ) / 2⌋ = (b : Int) + 1 := by
    rw [hwz]; exact key ((b : Int) + 1)
  have hcell : g ((b : Int) + 1) ((a : Int) + 1) = 2 := by
    rw [hgeq]; exact setCell_self gs1.1 ((b : Int) + 1) ((a : Int) + 1) 2
  rw [checkCollision_cases, egx, egz, if_neg (by omega), hcell,
    if_neg (by omega), if_pos rfl]

/-- Witness for C8: the round trip at `i = 7`, `N = 15` (the shipped
configuration), and the exit event at the concrete generated maze. -/
theorem exit_roundtrip_witness :
    (0 : Int) ≤ 7 ∧ (7 : Int) < ((15 : Nat) : Int) ∧
    ⌊(((7 : Int) : ℚ) - ((15 : Nat) : ℚ) / 2 + 1 / 2) * CELL_SIZE + ((15 : Nat) : ℚ) / 2⌋
      = (7 : Int) ∧
    (2 : Nat) ≤ 5 ∧ generateMaze 5 2 2 rngDemo 50 = some (demoRes.1, demoRes.2.1, demoRes.2.2) ∧
    checkCollision demoRes.2.1 demoRes.2.2 demoRes.1 5 = (false, true) := by
  have hgen : generateMaze 5 2 2 rngDemo 50 = some (demoRes.1, demoRes.2.1, demoRes.2.2) := rfl
  refine ⟨by decide, by decide, ?_, by decide, hgen, ?_⟩
  · exact (exit_roundtrip 15 7 0 0 [] 0 (initGrid 15) 0 0).1 (by decide) (by decide)
  · exact (exit_roundtrip 5 0 2 2 rngDemo 50 demoRes.1 demoRes.2.1 demoRes.2.2).2
      (by decide) hgen

/-- C3 counterexample: `generateMaze` performs no size validation at all.
Called with the even size `4` it silently returns a maze grid instead of
raising or returning an error — there is no failure path in the source for
an invalid size. -/
theorem generateMaze_even_counterexample :
    (generateMaze 4 1 1 rngEven 50).isSome = true := by decide

theorem exitLoop_two_none (sx sy : Int) (g : Grid)
    (hcond : ¬(g 1 1 = 0 ∧ ¬((1 : Int) = sx ∧ (1 : Int) = sy))) :
    ∀ (fuel : Nat) (s : List Nat), exitLoop 2 sx sy g fuel s = none := by
  intro fuel
  induction fuel with
  | zero => intro s; simp [exitLoop]
  | succ fuel ih =>
    intro s
    simp only [exitLoop, show (jsRandFloor (s.headD 0) (2 - 2) : Nat) = 0 from rfl,
      show (jsRandFloor (s.tail.headD 0) (2 - 2) : Nat) = 0 from rfl,
      Nat.cast_zero, zero_add]
    rw [if_neg hcond]
    exact ih s.tail.tail

/-- C3 amended: `generateMaze` never fails fast on an invalid size.  An
even size (counterexample above) silently yields a grid, and a too-small
size misbehaves silently in the other direction: for size `2` and any
in-bounds start, the exit-placement rejection loop can never find an
acceptable cell and runs forever (in the embedding: `none` for every
fuel). -/
theorem generateMaze_size_two_hangs (sx sy : Int) (s : List Nat) (exitFuel : Nat)
    (hb : inB 2 sy sx) :
    generateMaze 2 sx sy s exitFuel = none := by
  unfold generateMaze
  have hstuck : carvePath 2 (carveFuel 2) (initGrid 2) sx sy s =
      some (setCell (initGrid 2) sy sx 0, (shuffle dirs s).2) := by
    show carvePath 2 1 (initGrid 2) sx sy s = _
    simp only [carvePath]
    apply carveDirs_stuck
    intro d hd
    have hdd := mem_dirs_comp (shuffle_subset dirs s hd)
    obtain ⟨hb1, hb2, hb3, hb4⟩ := hb
    rcases hdd with ⟨e1, e2⟩ | ⟨e1, e2⟩ | ⟨e1, e2⟩ | ⟨e1, e2⟩ <;> omega
  rw [hstuck]
  show exitLoop 2 sx sy (setCell (initGrid 2) sy sx 0) exitFuel (shuffle dirs s).2 = none
  apply exitLoop_two_none
  by_cases hstart : sx = 1 ∧ sy = 1
  · intro hcc
    exact hcc.2 ⟨hstart.1.symm, hstart.2.symm⟩
  · intro hcc
    have h11 : setCell (initGrid 2) sy sx 0 1 1 = initGrid 2 1 1 := by
      apply setCell_ne
      rintro ⟨u1, u2⟩
      exact hstart ⟨u2.symm, u1.symm⟩
    have h12 : initGrid 2 1 1 = 1 :=
      initGrid_inB ⟨by norm_num, by norm_num, by norm_num, by norm_num⟩
    rw [h11, h12] at hcc
    exact absurd hcc.1 (by omega)

/-- Witness for the amended C3 statement at start `(0, 0)`. -/
theorem generateMaze_size_two_hangs_witness :
    inB 2 0 0 ∧ generateMaze 2 0 0 [] 7 = none :=
  ⟨by decide, generateMaze_size_two_hangs 0 0 [] 7 (by decide)⟩

/-- Witness for C1 at the concrete 5×5 generation: the exit cell
`(x, y) = (1, 2)` of the produced maze is reachable from the start
`(2, 2)`. -/
theorem generateMaze_connected_witness :
    Odd 5 ∧ 5 ≤ 5 ∧ interiorStart 5 2 2 ∧
    generateMaze 5 2 2 rngDemo 50 = some (demoRes.1, demoRes.2.1, demoRes.2.2) ∧
    inB 5 2 1 ∧ demoRes.1 2 1 = 2 ∧
    Reach demoRes.1 5 (2, 2) (1, 2) := by
  have hgen : generateMaze 5 2 2 rngDemo 50 = some (demoRes.1, demoRes.2.1, demoRes.2.2) := rfl
  have hodd : Odd 5 := Nat.odd_iff.mpr (by norm_num)
  exact ⟨hodd, le_refl 5, by decide, hgen, by decide, by decide,
    generateMaze_connected 5 2 2 rngDemo 50 demoRes.1 demoRes.2.1 demoRes.2.2
      hodd (le_refl 5) (by decide) hgen 2 1 (by decide) (Or.inr (by decide))⟩

/-- Witness for C2 at the concrete 5×5 generation. -/
theorem generateMaze_exit_unique_witness :
    Odd 5 ∧ 5 ≤ 5 ∧ interiorStart 5 2 2 ∧
    generateMaze 5 2 2 rngDemo 50 = some (demoRes.1, demoRes.2.1, demoRes.2.2) ∧
    (exitCount demoRes.1 5 = 1 ∧ demoRes.1 2 2 ≠ 2 ∧
      (∀ y x : Int, inB 5 y x → demoRes.1 y x ≠ 1 →
        demoRes.1 y x = 0 ∨ demoRes.1 y x = 2)) := by
  have hgen : generateMaze 5 2 2 rngDemo 50 = some (demoRes.1, demoRes.2.1, demoRes.2.2) := rfl
  have hodd : Odd 5 := Nat.odd_iff.mpr (by norm_num)
  exact ⟨hodd, le_refl 5, by decide, hgen,
    generateMaze_exit_unique 5 2 2 rngDemo 50 demoRes.1 demoRes.2.1 demoRes.2.2
      hodd (le_refl 5) (by decide) hgen⟩

/-- Witness for C10 at the concrete 5×5 generation from the odd-odd start
`(1, 1)`. -/
theorem generateMaze_enclosed_witness :
    Odd 5 ∧ 5 ≤ 5 ∧ (1 : Int) % 2 = 1 ∧ inB 5 1 1 ∧
    generateMaze 5 1 1 rngOdd 50 = some (demoOddRes.1, demoOddRes.2.1, demoOddRes.2.2) ∧
    ((∀ t : Int, 0 ≤ t → t < ((5 : Nat) : Int) →
        demoOddRes.1 0 t = 1 ∧ demoOddRes.1 (((5 : Nat) : Int) - 1) t = 1 ∧
        demoOddRes.1 t 0 = 1 ∧ demoOddRes.1 t (((5 : Nat) : Int) - 1) = 1) ∧
      (∀ y x : Int, inB 5 y x → demoOddRes.1 y x = 2 → interiorPt 5 y x)) := by
  have hgen : generateMaze 5 1 1 rngOdd 50 =
      some (demoOddRes.1, demoOddRes.2.1, demoOddRes.2.2) := rfl
  have hodd : Odd 5 := Nat.odd_iff.mpr (by norm_num)
  exact ⟨hodd, le_refl 5, by decide, by decide, hgen,
    generateMaze_enclosed 5 1 1 rngOdd 50 demoOddRes.1 demoOddRes.2.1 demoOddRes.2.2
      hodd (le_refl 5) (by decide) (by decide) (by decide) hgen⟩

end MazeGame
